import Mathlib

/-!
# Outfit Vault — verification of the core pipeline

A shallow embedding of the persistence + image-normalization + filter/sort
pipeline of the single-file web application (`src/app.js`, latest revision),
together with theorems settling the specification claims.

Conventions of the embedding:
* JavaScript numbers are modelled as exact rationals (`ℚ`); `NaN`/`±Infinity`
  appear where the code can produce them (`JSNum`).
* JavaScript strings are Lean `String`s; `toLowerCase`, `trim`, `split(",")`
  and `join(",")` are modelled character-listwise (`jsToLower`, `jsTrim`,
  `jsSplitComma`, `jsJoinComma`), matching the JS behaviour on the ASCII
  range the application manipulates.
* Binary payloads (`Blob`) are byte lists; the platform pair
  `FileReader.readAsDataURL` / `fetch(dataUrl).blob()` is a lossless
  encode/decode pair and is modelled as identity transport on the bytes.
* The IndexedDB object store is a list of records with unique ids; `put`
  replaces the record with the same key or inserts, `delete` removes by key,
  `getAll` returns the records.
-/

/-- JavaScript number values as seen by `Number(...)` coercion: either a
finite value (exact rational model) or one of the non-finite values. -/
inductive JSNum where
  | nan : JSNum
  | inf (positive : Bool) : JSNum
  | num (q : ℚ) : JSNum
deriving DecidableEq

/-- `Math.round` for finite values: round half toward positive infinity. -/
def jsRound (q : ℚ) : ℤ := ⌊q + 1 / 2⌋

/-- `Number.isFinite`. -/
def JSNum.isFinite : JSNum → Bool
  | .num _ => true
  | _ => false

/-- `clampRating` (src/app.js:839–843): coerce with `Number`, return `0` for
non-finite input, else `Math.min(5, Math.max(0, Math.round(x)))`. -/
def clampRating (n : JSNum) : ℤ :=
  match n with
  | .num q => min 5 (max 0 (jsRound q))
  | _ => 0

/-- `String.prototype.toLowerCase`, modelled as per-character ASCII lowering
(the character mapping used by the application's tag strings). -/
def jsToLower (s : String) : String := ⟨s.data.map Char.toLower⟩

/-- `String.prototype.trim`: drop whitespace from both ends. -/
def jsTrim (s : String) : String :=
  ⟨((s.data.dropWhile Char.isWhitespace).reverse.dropWhile Char.isWhitespace).reverse⟩

/-- `split(",")` on the underlying character list (structural recursion so
that concrete inputs evaluate in the kernel). -/
def splitCommaAux : List Char → List Char → List (List Char)
  | [], cur => [cur.reverse]
  | c :: rest, cur =>
    if c = ',' then cur.reverse :: splitCommaAux rest []
    else splitCommaAux rest (c :: cur)

/-- `String.prototype.split(",")`. -/
def jsSplitComma (s : String) : List String :=
  (splitCommaAux s.data []).map fun cs => ⟨cs⟩

/-- `Array.prototype.join(",")`. -/
def jsJoinComma : List String → String
  | [] => ""
  | [t] => t
  | t :: rest => t ++ "," ++ jsJoinComma rest

/-- `Array.from(new Set(...))`: keep the first occurrence of each element,
in order. `seen` accumulates the elements already emitted. -/
def dedupFirst (seen : List String) : List String → List String
  | [] => []
  | x :: xs =>
    if x ∈ seen then dedupFirst seen xs
    else x :: dedupFirst (x :: seen) xs

/-- `parseTags` (src/app.js:864–870): split the raw string on commas, trim and
lowercase each piece, drop empties, deduplicate, keep at most 20. -/
def parseTags (raw : String) : List String :=
  let s := ((jsSplitComma raw).map fun x => jsToLower (jsTrim x)).filter (· ≠ "")
  (dedupFirst [] s).take 20

/-- `safeName` (src/app.js:844–847): trimmed name, or the placeholder when the
trimmed name is empty. -/
def safeName (name : String) : String :=
  let s := jsTrim name
  if s = "" then "Outfit senza nome" else s

/-! ## Basic lemmas about the helpers -/

theorem jsRound_intCast (n : ℤ) : jsRound (n : ℚ) = n := by
  unfold jsRound
  rw [Int.floor_eq_iff]
  constructor
  · linarith
  · linarith

theorem clampRating_nonneg (n : JSNum) : 0 ≤ clampRating n := by
  cases n with
  | num q => simp [clampRating]
  | nan => simp [clampRating]
  | inf b => simp [clampRating]

theorem clampRating_le_five (n : JSNum) : clampRating n ≤ 5 := by
  cases n with
  | num q => simp [clampRating]
  | nan => simp [clampRating]
  | inf b => simp [clampRating]

theorem clampRating_num_int (k : ℤ) (h0 : 0 ≤ k) (h5 : k ≤ 5) :
    clampRating (.num (k : ℚ)) = k := by
  simp only [clampRating, jsRound_intCast]
  omega

theorem clampRating_idem (n : JSNum) :
    clampRating (.num ((clampRating n : ℤ) : ℚ)) = clampRating n :=
  clampRating_num_int _ (clampRating_nonneg n) (clampRating_le_five n)

/-- Kernel-level fact about `Char.ofNat` on a valid codepoint. -/
theorem charToNat_ofNat_valid (m : ℕ) (h : m.isValidChar) :
    (Char.ofNat m).toNat = m := by
  rw [Char.ofNat, dif_pos h]
  rfl

theorem charToLower_idem (c : Char) :
    Char.toLower (Char.toLower c) = Char.toLower c := by
  unfold Char.toLower
  by_cases h : c.toNat ≥ 65 ∧ c.toNat ≤ 90
  · rw [if_pos h]
    have hv : (c.toNat + 32).isValidChar := Or.inl (by omega)
    have ht : (Char.ofNat (c.toNat + 32)).toNat = c.toNat + 32 :=
      charToNat_ofNat_valid _ hv
    rw [if_neg]
    rw [ht]
    omega
  · rw [if_neg h, if_neg h]

theorem jsToLower_idem (s : String) : jsToLower (jsToLower s) = jsToLower s := by
  unfold jsToLower
  simp only [List.map_map]
  congr 1
  apply List.map_congr_left
  intro c _
  exact charToLower_idem c

theorem mem_dedupFirst {x : String} :
    ∀ {l seen : List String}, x ∈ dedupFirst seen l → x ∈ l := by
  intro l
  induction l with
  | nil => intro seen h; simp [dedupFirst] at h
  | cons y ys ih =>
    intro seen h
    unfold dedupFirst at h
    by_cases hy : y ∈ seen
    · rw [if_pos hy] at h
      exact List.mem_cons_of_mem _ (ih h)
    · rw [if_neg hy] at h
      rcases List.mem_cons.mp h with h1 | h2
      · exact h1 ▸ List.mem_cons_self _ _
      · exact List.mem_cons_of_mem _ (ih h2)

theorem dedupFirst_not_mem_seen {x : String} :
    ∀ {l seen : List String}, x ∈ dedupFirst seen l → x ∉ seen := by
  intro l
  induction l with
  | nil => intro seen h; simp [dedupFirst] at h
  | cons y ys ih =>
    intro seen h
    unfold dedupFirst at h
    by_cases hy : y ∈ seen
    · rw [if_pos hy] at h
      exact ih h
    · rw [if_neg hy] at h
      rcases List.mem_cons.mp h with h1 | h2
      · exact h1 ▸ hy
      · intro hx
        exact ih h2 (List.mem_cons_of_mem _ hx)

theorem dedupFirst_nodup : ∀ (l seen : List String), (dedupFirst seen l).Nodup := by
  intro l
  induction l with
  | nil => intro seen; simp [dedupFirst]
  | cons y ys ih =>
    intro seen
    unfold dedupFirst
    by_cases hy : y ∈ seen
    · rw [if_pos hy]; exact ih seen
    · rw [if_neg hy]
      refine List.nodup_cons.mpr ⟨?_, ih (y :: seen)⟩
      intro hmem
      exact dedupFirst_not_mem_seen hmem (List.mem_cons_self _ _)

theorem parseTags_length_le (raw : String) : (parseTags raw).length ≤ 20 := by
  unfold parseTags
  exact List.length_take_le _ _

theorem parseTags_nodup (raw : String) : (parseTags raw).Nodup := by
  unfold parseTags
  exact (dedupFirst_nodup _ _).sublist (List.take_sublist _ _)

theorem parseTags_mem_props {raw t : String} (h : t ∈ parseTags raw) :
    t ≠ "" ∧ jsToLower t = t := by
  unfold parseTags at h
  have h1 : t ∈ (((jsSplitComma raw).map fun x => jsToLower (jsTrim x)).filter (· ≠ "")) :=
    mem_dedupFirst (List.mem_of_mem_take h)
  have h2 := List.of_mem_filter h1
  have h3 := List.mem_of_mem_filter h1
  refine ⟨by simpa using h2, ?_⟩
  rcases List.mem_map.mp h3 with ⟨x, _, hx⟩
  rw [← hx]
  exact jsToLower_idem _

/-! ## Data model -/

/-- A binary payload (`Blob`): its byte content. -/
structure Blob where
  bytes : List ℕ
deriving DecidableEq

/-- A `data:` URL. The platform pair `FileReader.readAsDataURL` /
`fetch(dataUrl).blob()` is a lossless base64 encode/decode pair; the
embedding models it as identity transport of the bytes. -/
structure DataUrl where
  bytes : List ℕ
deriving DecidableEq

/-- `blobToDataURL` (src/app.js:877–884). -/
def blobToDataURL (b : Blob) : DataUrl := ⟨b.bytes⟩

/-- `dataURLToBlob` (src/app.js:886–890). -/
def dataURLToBlob (d : DataUrl) : Blob := ⟨d.bytes⟩

/-- An `OutfitRecord` as persisted by the application. Numeric fields are
JavaScript numbers (exact rational model). -/
structure Outfit where
  id : String
  name : String
  rating : ℚ
  favorite : Bool
  createdAt : ℚ
  imageBlob : Blob
  tags : List String
  notes : String
  wearCount : ℚ
  lastWornAt : ℚ
deriving DecidableEq

/-- The IndexedDB object store, as a list of records (`getAll` view). -/
abbrev Store := List Outfit

/-- `store.put(outfit)` inside `dbPutOutfit` (src/app.js:804–807): replace the
record with the same key, or insert. -/
def dbPut (st : Store) (o : Outfit) : Store :=
  if st.any fun r => r.id = o.id then
    st.map fun r => if r.id = o.id then o else r
  else st ++ [o]

/-- `store.delete(id)` inside `dbDeleteOutfit` (src/app.js:808–811). -/
def dbDelete (st : Store) (id : String) : Store :=
  st.filter fun r => r.id ≠ id

/-- `store.get(id)` inside `dbGetOutfit` (src/app.js:822–831): the record with
that key, or `null`. -/
def dbGet (st : Store) (id : String) : Option Outfit :=
  st.find? fun r => r.id = id

/-- The store ids are pairwise distinct (IndexedDB keyPath uniqueness). -/
def StoreWF (st : Store) : Prop := (st.map fun o => o.id).Nodup

instance (st : Store) : Decidable (StoreWF st) := by
  unfold StoreWF
  infer_instance

/-! ## Catalog view model: filters and sorting -/

/-- `state.filter` (src/app.js:1067–1072). -/
structure FilterSpec where
  fav : Bool
  minRating : ℚ
  staleDays : ℚ
  tag : String
deriving DecidableEq

/-- The criteria read by `applyFiltersAndSort`: `state.search`,
`state.filter`, `state.sort`. -/
structure Criteria where
  search : String
  filter : FilterSpec
  sort : String
deriving DecidableEq

/-- `String.prototype.includes`, on the character lists. -/
def jsIncludes (hay needle : String) : Bool :=
  decide (needle.data <:+: hay.data)

/-- `String.prototype.localeCompare`, modelled as a deterministic
lexicographic comparison returning a negative, zero or positive number. -/
def localeCompare (a b : String) : ℚ :=
  if a < b then -1 else if b < a then 1 else 0

/-- The comparator passed to `arr.sort` (src/app.js:1243–1263), keyed by the
sort-mode string. -/
def cmpOutfit (s : String) (a b : Outfit) : ℚ :=
  let af : ℚ := if a.favorite then 1 else 0
  let bf : ℚ := if b.favorite then 1 else 0
  if s = "fav_first" then
    if bf ≠ af then bf - af else b.createdAt - a.createdAt
  else if s = "date_desc" then b.createdAt - a.createdAt
  else if s = "date_asc" then a.createdAt - b.createdAt
  else if s = "rating_desc" then b.rating - a.rating
  else if s = "rating_asc" then a.rating - b.rating
  else if s = "name_asc" then localeCompare a.name b.name
  else if s = "name_desc" then localeCompare b.name a.name
  else if s = "wear_desc" then b.wearCount - a.wearCount
  else if s = "wear_asc" then a.wearCount - b.wearCount
  else if s = "lastworn_asc" then a.lastWornAt - b.lastWornAt
  else if s = "lastworn_desc" then b.lastWornAt - a.lastWornAt
  else 0

/-- `applyFiltersAndSort` (src/app.js:1216–1266) as a function of the record
snapshot (`state.outfits`), the criteria, and the clock reading `Date.now()`
taken inside the stale-days filter. The in-place `arr.sort` (stable in ES2019+)
is modelled by a stable insertion sort on the non-strict comparator order. -/
def applyFiltersAndSort (outfits : List Outfit) (c : Criteria) (now : ℚ) :
    List Outfit :=
  let q := jsToLower (jsTrim c.search)
  let arr := outfits
  let arr := if c.filter.fav then arr.filter fun o => o.favorite else arr
  let arr := if 0 < c.filter.minRating then
      arr.filter fun o => c.filter.minRating ≤ o.rating
    else arr
  let arr := if 0 < c.filter.staleDays then
      let limit := now - c.filter.staleDays * 24 * 60 * 60 * 1000
      arr.filter fun o => o.lastWornAt = 0 ∨ o.lastWornAt < limit
    else arr
  let arr := if c.filter.tag ≠ "" then arr.filter fun o => c.filter.tag ∈ o.tags
    else arr
  let arr := if q ≠ "" then
      arr.filter fun o => jsIncludes (jsToLower o.name) q ∨ jsIncludes (jsToLower o.notes) q
    else arr
  let arr := if c.sort = "fav_only" then arr.filter fun o => o.favorite else arr
  arr.insertionSort fun a b => cmpOutfit c.sort a b ≤ 0

/-! ## Image normalizer -/

/-- An input image file, abstracted by what the two decode paths and the
canvas re-encode step can observe of it:
* `fastDecode` — result of `createImageBitmap(file)` (`none` = the promise
  rejected), as the decoded pixel dimensions;
* `slowDecode` — result of decoding via `FileReader` + `Image` (`none` = the
  `onerror` path, which rejects the wrapping promise);
* `encodeOk` — whether `canvas.toBlob` yields a blob (`false` = it yields
  `null`). -/
structure InputImage where
  fastDecode : Option (ℕ × ℕ)
  slowDecode : Option (ℕ × ℕ)
  encodeOk : Bool
deriving DecidableEq

/-- The bitmap obtained by `fileToSafeJpegBlob`: the fast path, else the
fallback path. -/
def imgDecode (img : InputImage) : Option (ℕ × ℕ) :=
  match img.fastDecode with
  | some d => some d
  | none => img.slowDecode

/-- Result of the resize-normalize operation: a freshly encoded JPEG with the
given canvas dimensions, or the original input passed through. -/
inductive NormResult where
  | encoded (w h : ℤ) : NormResult
  | original : NormResult
deriving DecidableEq

/-- `fileToSafeJpegBlob` (src/app.js:893–932, identical to 173–219): decode
via the fast path, falling back to the slow path (whose failure rejects the
returned promise — modelled as `Except.error`); scale by
`min(1, maxSide / max(w, h))`; round each dimension, with a floor of 1;
re-encode, returning the original file if `toBlob` yields no blob. -/
def fileToSafeJpegBlob (img : InputImage) (maxSide : ℕ) : Except Unit NormResult :=
  match imgDecode img with
  | none => .error ()
  | some (w, h) =>
    let scale : ℚ := min 1 ((maxSide : ℚ) / (max w h : ℕ))
    let cw : ℤ := max 1 (jsRound ((w : ℚ) * scale))
    let ch : ℤ := max 1 (jsRound ((h : ℚ) * scale))
    if img.encodeOk then .ok (.encoded cw ch) else .ok .original

/-- Result of the center-crop operation: a square JPEG of side `outSide`
taken from the centered source square at `(sx, sy)` of side `cropSide`; the
original input passed through; or the result of the resize fallback. -/
inductive CropResult where
  | square (sx sy cropSide outSide : ℕ) : CropResult
  | original : CropResult
  | fallback (r : NormResult) : CropResult
deriving DecidableEq

/-- `cropCenterSquareToJpeg` (src/app.js:935–964): decode via the fast path
only; on failure delegate to `fileToSafeJpegBlob`; otherwise crop the largest
centered square (`side = min(w, h)`, origin `floor((w-side)/2)`,
`floor((h-side)/2)`) onto a canvas of side `min(maxSide, side)`; return the
original input if `toBlob` yields no blob. -/
def cropCenterSquareToJpeg (img : InputImage) (maxSide : ℕ) : Except Unit CropResult :=
  match img.fastDecode with
  | none => (fileToSafeJpegBlob img maxSide).map .fallback
  | some (w, h) =>
    let side := min w h
    let sx := (w - side) / 2
    let sy := (h - side) / 2
    let outSide := min maxSide side
    if img.encodeOk then .ok (.square sx sy side outSide) else .ok .original

/-! ## Backup codec -/

/-- One entry of the `outfits` array of a backup document, as read by
the import loop. Numeric fields are `Option ℚ`: `none` models an absent field
(JSON `undefined`). `favorite` is the truth value `!!o.favorite`.
`imageDataUrl` is `none` when the field is absent or empty (falsy).
`tags` is either a JSON array of strings or a plain (possibly empty) string,
matching the `Array.isArray(o.tags)` test. -/
structure RawEntry where
  id : String
  name : String
  rating : Option ℚ
  favorite : Bool
  createdAt : Option ℚ
  imageDataUrl : Option DataUrl
  tags : List String ⊕ String
  notes : String
  wearCount : Option ℚ
  lastWornAt : Option ℚ
deriving DecidableEq

/-- `x || d` for an optional JS number slot: absent, `0` and `NaN` are falsy.
(The model keeps only finite values in the slot, so falsy = absent or `0`.) -/
def jsOrQ (x : Option ℚ) (d : ℚ) : ℚ :=
  match x with
  | none => d
  | some q => if q = 0 then d else q

/-- The entry written for one record by `exportOutfits`
(src/app.js:1694–1701): every record field spread into the entry, plus the
payload as a data URL; `imageBlob` is set to `undefined` and hence dropped by
`JSON.stringify`. -/
def exportEntry (o : Outfit) : RawEntry :=
  { id := o.id
    name := o.name
    rating := some o.rating
    favorite := o.favorite
    createdAt := some o.createdAt
    imageDataUrl := some (blobToDataURL o.imageBlob)
    tags := .inl o.tags
    notes := o.notes
    wearCount := some o.wearCount
    lastWornAt := some o.lastWornAt }

/-- The backup document built by `exportOutfits` (src/app.js:1687–1703):
`{ version: 1, exportedAt: ..., outfits: [...] }`. -/
structure ExportDoc where
  version : ℚ
  outfits : List RawEntry
deriving DecidableEq

/-- `exportOutfits` (src/app.js:1687–1715), restricted to the document it
serializes (the download side effects are external). -/
def exportOutfits (os : List Outfit) : ExportDoc :=
  { version := 1, outfits := os.map exportEntry }

/-- The outfit built from one import entry (src/app.js:1734–1745), given the
chosen id, the decoded blob, and the clock reading used for the `createdAt`
default. -/
def importedOutfit (id : String) (blob : Blob) (e : RawEntry) (now : ℚ) : Outfit :=
  { id := id
    name := safeName e.name
    rating := (clampRating (.num (jsOrQ e.rating 0)) : ℤ)
    favorite := e.favorite
    createdAt := jsOrQ e.createdAt now
    imageBlob := blob
    tags := match e.tags with
      | .inl arr => parseTags (jsJoinComma arr)
      | .inr s => parseTags s
    notes := jsTrim e.notes
    wearCount := jsOrQ e.wearCount 0
    lastWornAt := jsOrQ e.lastWornAt 0 }

/-- The entry loop of `importOutfitsFromFile` (src/app.js:1726–1748).
`existing` is the mutable id set (`new Set(state.outfits.map(o => o.id))`,
grown by `existing.add(id)`); `fresh k` is the value of the `k`-th call to
`uid()`; entries that are `null` or miss their image payload are skipped. -/
def importLoop (fresh : ℕ → String) (now : ℚ) :
    List (Option RawEntry) → List String → ℕ → Store → Store
  | [], _, _, db => db
  | e? :: rest, existing, k, db =>
    match e? with
    | none => importLoop fresh now rest existing k db
    | some e =>
      match e.imageDataUrl with
      | none => importLoop fresh now rest existing k db
      | some dataUrl =>
        let blob := dataURLToBlob dataUrl
        let keep := e.id ≠ "" ∧ e.id ∉ existing
        let id := if keep then e.id else fresh k
        let k' := if keep then k else k + 1
        importLoop fresh now rest (id :: existing) k'
          (dbPut db (importedOutfit id blob e now))

/-- `importOutfitsFromFile` (src/app.js:1717–1752) on an already-parsed
document: `none` models a document whose top-level shape is wrong (`!data`
or `data.outfits` not an array), which throws before touching the store;
otherwise the entries are folded over the store. -/
def importOutfitsFromFile (st : Store) (fresh : ℕ → String) (now : ℚ)
    (doc : Option (List (Option RawEntry))) : Except String Store :=
  match doc with
  | none => .error "Formato backup non valido"
  | some entries => .ok (importLoop fresh now entries (st.map fun o => o.id) 0 st)

/-! ## Bulk operations and undo -/

/-- `bulkToggleFavorite` (src/app.js:1791–1806) as a function of the snapshot
(`state.outfits`, which mirrors the store) and the selected id set. -/
def bulkToggleFavorite (st : Store) (ids : List String) : Store :=
  if ids.isEmpty then st
  else
    let selected := st.filter fun o => o.id ∈ ids
    let allFav := decide (0 < selected.length) && selected.all fun o => o.favorite
    let targetFav := !allFav
    selected.foldl (fun db o => dbPut db { o with favorite := targetFav }) st

/-- The delete-with-undo state: the store plus the single undo slot
(`state.lastDeleted`). -/
structure UndoState where
  store : Store
  lastDeleted : Option Outfit
deriving DecidableEq

/-- `deleteDetailWithUndo` (src/app.js:1585–1614), for a given
`state.selectedId`: fetch the record, remember it in the undo slot, delete it
from the store. -/
def deleteDetailWithUndo (s : UndoState) (selectedId : Option String) : UndoState :=
  match selectedId with
  | none => s
  | some sid =>
    match dbGet s.store sid with
    | none => s
    | some o => { store := dbDelete s.store o.id, lastDeleted := some o }

/-- The undo action of the toast (src/app.js:1601–1608): if the undo slot is
empty do nothing, else put the remembered record back and clear the slot. -/
def undoDelete (s : UndoState) : UndoState :=
  match s.lastDeleted with
  | none => s
  | some o => { store := dbPut s.store o, lastDeleted := none }

/-- Expiry of the undo window (src/app.js:1610–1613): the timer clears the
undo slot. -/
def undoWindowExpire (s : UndoState) : UndoState :=
  { s with lastDeleted := none }

/-! ## Record invariant and sample data -/

/-- A record satisfying the data-model invariants of §3 of the specification,
in operational form: non-empty id, trimmed non-empty name, integer rating in
`[0, 5]`, non-zero creation timestamp, canonical tags (re-parsing the joined
tag text yields them unchanged), trimmed notes. Every record produced by the
creation path satisfies this. -/
def ValidOutfit (r : Outfit) : Prop :=
  r.id ≠ "" ∧
  jsTrim r.name = r.name ∧ r.name ≠ "" ∧
  (jsRound r.rating : ℚ) = r.rating ∧ 0 ≤ r.rating ∧ r.rating ≤ 5 ∧
  r.createdAt ≠ 0 ∧
  parseTags (jsJoinComma r.tags) = r.tags ∧
  jsTrim r.notes = r.notes

instance (r : Outfit) : Decidable (ValidOutfit r) := by
  unfold ValidOutfit
  infer_instance

/-- A deterministic stand-in for the stream of `uid()` results, used by the
concrete witnesses. -/
def freshConst : ℕ → String := fun _ => "o_fresh"

/-- Concrete sample payload. -/
def blobA : Blob := ⟨[255, 216, 7, 9]⟩

/-- Concrete sample record (favorite). -/
def outfitA : Outfit :=
  { id := "o_1_a", name := "Estate", rating := 4, favorite := true
    createdAt := 1000, imageBlob := blobA, tags := ["casual", "mare"]
    notes := "leggero", wearCount := 2, lastWornAt := 500 }

/-- Concrete sample record (not favorite). -/
def outfitB : Outfit :=
  { id := "o_2_b", name := "Inverno", rating := 3, favorite := false
    createdAt := 2000, imageBlob := blobA, tags := ["caldo"]
    notes := "", wearCount := 0, lastWornAt := 0 }

/-- Concrete sample record with a recorded wear event, for the stale-filter
counterexample. -/
def outfitW : Outfit :=
  { id := "o_3_w", name := "Worn", rating := 0, favorite := false
    createdAt := 100, imageBlob := blobA, tags := []
    notes := "", wearCount := 1, lastWornAt := 1000 }

/-- Criteria with only the stale-days filter active. -/
def staleCriteria : Criteria :=
  { search := "", filter := { fav := false, minRating := 0, staleDays := 1, tag := "" }
    sort := "date_desc" }

/-- An import entry whose id collides with `outfitA`. -/
def collideEntry : RawEntry :=
  { id := "o_1_a", name := "Copia", rating := some 2, favorite := false
    createdAt := some 3000, imageDataUrl := some ⟨[1, 2, 3]⟩
    tags := .inl ["x"], notes := "n", wearCount := some 0, lastWornAt := some 0 }

/-- The record the import loop builds from `collideEntry` under `freshConst`. -/
def importedCollide : Outfit :=
  importedOutfit "o_fresh" (dataURLToBlob ⟨[1, 2, 3]⟩) collideEntry 1

/-! ## Store lemmas -/

theorem dbGet_eq_some_of_mem {st : Store} {X : Outfit}
    (hwf : StoreWF st) (hmem : X ∈ st) : dbGet st X.id = some X := by
  induction st with
  | nil => cases hmem
  | cons y t ih =>
    have hwf' := List.nodup_cons.mp hwf
    by_cases hy : y.id = X.id
    · have hXy : X = y := by
        rcases List.mem_cons.mp hmem with h1 | h2
        · exact h1
        · exfalso
          apply hwf'.1
          show y.id ∈ t.map fun o => o.id
          rw [hy]
          exact List.mem_map.mpr ⟨X, h2, rfl⟩
      unfold dbGet
      rw [List.find?_cons_of_pos _ (by simp [hy])]
      rw [hXy]
    · have hXt : X ∈ t := by
        rcases List.mem_cons.mp hmem with h1 | h2
        · exact absurd (congrArg (fun o => o.id) h1).symm hy
        · exact h2
      unfold dbGet at *
      rw [List.find?_cons_of_neg _ (by simp [hy])]
      exact ih hwf'.2 hXt

theorem dbDelete_append_self_perm {st : Store} {X : Outfit}
    (hwf : StoreWF st) (hmem : X ∈ st) :
    (dbDelete st X.id ++ [X]).Perm st := by
  induction st with
  | nil => cases hmem
  | cons y t ih =>
    have hwf' := List.nodup_cons.mp hwf
    rcases List.mem_cons.mp hmem with h1 | h2
    · subst h1
      have hfilter : dbDelete (X :: t) X.id = t := by
        unfold dbDelete
        rw [List.filter_cons_of_neg (by simp)]
        apply List.filter_eq_self.mpr
        intro r hr
        simp only [decide_eq_true_eq]
        intro hrid
        apply hwf'.1
        show X.id ∈ t.map fun o => o.id
        rw [← hrid]
        exact List.mem_map.mpr ⟨r, hr, rfl⟩
      rw [hfilter]
      exact List.perm_append_singleton _ _
    · have hy : y.id ≠ X.id := by
        intro he
        apply hwf'.1
        show y.id ∈ t.map fun o => o.id
        rw [he]
        exact List.mem_map.mpr ⟨X, h2, rfl⟩
      have hfilter : dbDelete (y :: t) X.id = y :: dbDelete t X.id := by
        unfold dbDelete
        rw [List.filter_cons_of_pos (by simp [hy])]
      rw [hfilter, List.cons_append]
      exact (ih hwf'.2 h2).cons y

theorem dbPut_of_fresh {st : Store} {o : Outfit}
    (h : (st.any fun r => r.id = o.id) = false) : dbPut st o = st ++ [o] := by
  unfold dbPut
  rw [if_neg]
  simp [h]

theorem dbDelete_any_self (st : Store) (id : String) :
    ((dbDelete st id).any fun r => r.id = id) = false := by
  rw [List.any_eq_false]
  intro r hr
  have := List.of_mem_filter hr
  simpa using this

/-! ## Claim C9 — rating clamp: range and idempotence -/

/-- C9: for every input (finite, non-finite, fractional), `clampRating`
returns an integer in `[0, 5]`, and it is idempotent: feeding the returned
number back through `clampRating` returns it unchanged. -/
theorem clampRating_range_and_idem (x : JSNum) :
    (0 ≤ clampRating x ∧ clampRating x ≤ 5) ∧
    clampRating (.num ((clampRating x : ℤ) : ℚ)) = clampRating x :=
  ⟨⟨clampRating_nonneg x, clampRating_le_five x⟩, clampRating_idem x⟩

/-! ## Claim C10 — tag parser invariant -/

/-- C10: for every raw tag input, `parseTags` returns at most 20 tags, with
no duplicates, each non-empty and lowercase (a fixed point of lowercasing). -/
theorem parseTags_invariant (raw : String) :
    (parseTags raw).length ≤ 20 ∧ (parseTags raw).Nodup ∧
    ∀ t ∈ parseTags raw, t ≠ "" ∧ jsToLower t = t :=
  ⟨parseTags_length_le raw, parseTags_nodup raw,
    fun _ ht => parseTags_mem_props ht⟩

/-! ## Claim C8 — delete then undo restores the record -/

/-- C8: deleting a stored record `X` and invoking undo within the undo window
restores `X` (it is in `getAll()` again, all fields unchanged, and the store
is a permutation of the original); a second undo invocation after a
successful undo is a no-op. -/
theorem deleteThenUndo_restores (s : UndoState) (X : Outfit)
    (hwf : StoreWF s.store) (hmem : X ∈ s.store) :
    X ∈ (undoDelete (deleteDetailWithUndo s (some X.id))).store ∧
    (undoDelete (deleteDetailWithUndo s (some X.id))).store.Perm s.store ∧
    undoDelete (undoDelete (deleteDetailWithUndo s (some X.id)))
      = undoDelete (deleteDetailWithUndo s (some X.id)) := by
  have hget : dbGet s.store X.id = some X := dbGet_eq_some_of_mem hwf hmem
  have hdel : deleteDetailWithUndo s (some X.id)
      = { store := dbDelete s.store X.id, lastDeleted := some X } := by
    simp [deleteDetailWithUndo, hget]
  have hput : dbPut (dbDelete s.store X.id) X = dbDelete s.store X.id ++ [X] :=
    dbPut_of_fresh (dbDelete_any_self s.store X.id)
  rw [hdel]
  have h2 : undoDelete { store := dbDelete s.store X.id, lastDeleted := some X }
      = { store := dbDelete s.store X.id ++ [X], lastDeleted := none } := by
    simp [undoDelete, hput]
  rw [h2]
  exact ⟨by simp, dbDelete_append_self_perm hwf hmem, rfl⟩

/-- Witness for C8 at a concrete store. -/
theorem deleteThenUndo_restores_witness :
    outfitA ∈ (undoDelete (deleteDetailWithUndo ⟨[outfitA, outfitB], none⟩
        (some outfitA.id))).store ∧
    (undoDelete (deleteDetailWithUndo ⟨[outfitA, outfitB], none⟩
        (some outfitA.id))).store.Perm [outfitA, outfitB] :=
  have h := deleteThenUndo_restores ⟨[outfitA, outfitB], none⟩ outfitA
    (by decide) (by decide)
  ⟨h.1, h.2.1⟩

/-! ## Claim C2 — recompute is a pure function (of records, criteria, clock) -/

theorem filter_stage_sublist {l : List Outfit} {p : Outfit → Bool}
    (P : Prop) [Decidable P] :
    (if P then l.filter p else l).Sublist l := by
  split
  · exact List.filter_sublist l
  · exact List.Sublist.refl l

/-- C2 (amended): `applyFiltersAndSort` is a pure function of the record
snapshot, the criteria and the clock reading: it is deterministic in those
inputs, and it neither invents nor mutates records — its output is a
permutation of a sublist of the input snapshot. -/
theorem applyFiltersAndSort_pure (outfits : List Outfit) (c : Criteria) (now : ℚ) :
    applyFiltersAndSort outfits c now = applyFiltersAndSort outfits c now ∧
    (∃ sub : List Outfit, sub.Sublist outfits ∧
      (applyFiltersAndSort outfits c now).Perm sub) ∧
    ∀ o ∈ applyFiltersAndSort outfits c now, o ∈ outfits := by
  unfold applyFiltersAndSort
  refine ⟨rfl, ?_⟩
  set a1 := if c.filter.fav then outfits.filter fun o => o.favorite else outfits with ha1
  set a2 := if 0 < c.filter.minRating then
      a1.filter fun o => c.filter.minRating ≤ o.rating else a1 with ha2
  set a3 := if 0 < c.filter.staleDays then
      a2.filter fun o =>
        o.lastWornAt = 0 ∨ o.lastWornAt < now - c.filter.staleDays * 24 * 60 * 60 * 1000
    else a2 with ha3
  set a4 := if c.filter.tag ≠ "" then a3.filter fun o => c.filter.tag ∈ o.tags
    else a3 with ha4
  set q := jsToLower (jsTrim c.search) with hq
  set a5 := if q ≠ "" then
      a4.filter fun o => jsIncludes (jsToLower o.name) q ∨ jsIncludes (jsToLower o.notes) q
    else a4 with ha5
  set a6 := if c.sort = "fav_only" then a5.filter fun o => o.favorite else a5 with ha6
  have h1 : a1.Sublist outfits := by rw [ha1]; exact filter_stage_sublist _
  have h2 : a2.Sublist a1 := by rw [ha2]; exact filter_stage_sublist _
  have h3 : a3.Sublist a2 := by rw [ha3]; exact filter_stage_sublist _
  have h4 : a4.Sublist a3 := by rw [ha4]; exact filter_stage_sublist _
  have h5 : a5.Sublist a4 := by rw [ha5]; exact filter_stage_sublist _
  have h6 : a6.Sublist a5 := by rw [ha6]; exact filter_stage_sublist _
  have hsub : a6.Sublist outfits :=
    ((((h6.trans h5).trans h4).trans h3).trans h2).trans h1
  have hperm : (a6.insertionSort fun a b => cmpOutfit c.sort a b ≤ 0).Perm a6 :=
    List.perm_insertionSort _ _
  refine ⟨⟨a6, hsub, hperm⟩, ?_⟩
  intro o ho
  exact hsub.mem (hperm.mem_iff.mp ho)

unseal Rat.mul Rat.inv Rat.sub Rat.add in
/-- C2 counterexample: with the stale-days filter active, two invocations
with the same record set and the same criteria but different clock readings
yield different outputs, so recompute is not a function of
(record set, criteria) alone. -/
theorem applyFiltersAndSort_clock_dependent :
    applyFiltersAndSort [outfitW] staleCriteria 1000 = [] ∧
    applyFiltersAndSort [outfitW] staleCriteria 172801000 = [outfitW] ∧
    applyFiltersAndSort [outfitW] staleCriteria 1000
      ≠ applyFiltersAndSort [outfitW] staleCriteria 172801000 := by
  decide

/-! ## Claim C7 — bulk favorite toggle: majority-flip semantics -/

theorem outfit_id_inj {st : Store} (hwf : StoreWF st) {a b : Outfit}
    (ha : a ∈ st) (hb : b ∈ st) (hid : a.id = b.id) : a = b :=
  List.inj_on_of_nodup_map hwf ha hb hid

theorem dbPut_setFav_ids (db : Store) (o : Outfit) (t : Bool) :
    (db.map fun r => if r.id = o.id then { o with favorite := t } else r).map
        (fun r => r.id)
      = db.map fun r => r.id := by
  rw [List.map_map]
  apply List.map_congr_left
  intro r _
  by_cases h : r.id = o.id
  · simp [h]
  · simp [h]

theorem foldPut_setFav_eq_map (t : Bool) :
    ∀ (sel db : Store),
      (∀ o ∈ sel, o ∈ db) →
      StoreWF db →
      (sel.map fun r => r.id).Nodup →
      sel.foldl (fun acc o => dbPut acc { o with favorite := t }) db
        = db.map fun r =>
            if sel.any fun o => o.id = r.id then { r with favorite := t } else r := by
  intro sel
  induction sel with
  | nil =>
    intro db _ _ _
    simp
  | cons o rest ih =>
    intro db hsub hwf hsel
    have hodb : o ∈ db := hsub o (List.mem_cons_self _ _)
    have hsel' := List.nodup_cons.mp hsel
    have hany : (db.any fun r => r.id = ({ o with favorite := t } : Outfit).id) = true := by
      rw [List.any_eq_true]
      exact ⟨o, hodb, by simp⟩
    have hstep : dbPut db { o with favorite := t }
        = db.map fun r => if r.id = o.id then { o with favorite := t } else r := by
      unfold dbPut
      rw [if_pos hany]
    set g : Outfit → Outfit :=
      fun r => if r.id = o.id then { o with favorite := t } else r with hg
    have hrest_sub : ∀ o2 ∈ rest, o2 ∈ db.map g := by
      intro o2 ho2
      have ho2db : o2 ∈ db := hsub o2 (List.mem_cons_of_mem _ ho2)
      have hne : o2.id ≠ o.id := by
        intro he
        apply hsel'.1
        show o.id ∈ rest.map fun r => r.id
        rw [← he]
        exact List.mem_map.mpr ⟨o2, ho2, rfl⟩
      have : g o2 = o2 := by simp [hg, hne]
      exact this ▸ List.mem_map.mpr ⟨o2, ho2db, rfl⟩
    have hids : (db.map g).map (fun r => r.id) = db.map fun r => r.id :=
      dbPut_setFav_ids db o t
    have hwf1 : StoreWF (db.map g) := by
      unfold StoreWF
      rw [hids]
      exact hwf
    have hfold := ih (db.map g) hrest_sub hwf1 hsel'.2
    calc (o :: rest).foldl (fun acc o2 => dbPut acc { o2 with favorite := t }) db
        = rest.foldl (fun acc o2 => dbPut acc { o2 with favorite := t })
            (dbPut db { o with favorite := t }) := by rw [List.foldl_cons]
      _ = rest.foldl (fun acc o2 => dbPut acc { o2 with favorite := t }) (db.map g) := by
            rw [hstep]
      _ = (db.map g).map fun r =>
            if rest.any fun o2 => o2.id = r.id then { r with favorite := t } else r := hfold
      _ = db.map fun r =>
            if (o :: rest).any fun o2 => o2.id = r.id then { r with favorite := t }
            else r := by
            rw [List.map_map]
            apply List.map_congr_left
            intro r hr
            simp only [Function.comp_apply, List.any_cons, hg]
            by_cases hro : r.id = o.id
            · have hor : o = r := outfit_id_inj hwf hodb hr hro.symm
              have hrest_false : (rest.any fun o2 => o2.id = r.id) = false := by
                rw [List.any_eq_false]
                intro o2 ho2
                simp only [decide_eq_true_eq]
                intro he
                apply hsel'.1
                show o.id ∈ rest.map fun x => x.id
                exact List.mem_map.mpr ⟨o2, ho2, he.trans hro⟩
              subst hor
              simp [hrest_false]
            · have ho_ne : o.id ≠ r.id := fun he => hro he.symm
              simp [hro, ho_ne]

/-- C7: for a selection that matches at least one record, bulk
favorite-toggle follows majority-flip semantics: every selected record gets
`favorite := !(all selected were favorite)` — `false` when all selected were
already favorite, `true` otherwise — and unselected records are unchanged. -/
theorem bulkToggleFavorite_majorityFlip (st : Store) (ids : List String)
    (hwf : StoreWF st)
    (hne : st.filter (fun o => o.id ∈ ids) ≠ []) :
    bulkToggleFavorite st ids =
      st.map fun r =>
        if r.id ∈ ids then
          { r with favorite :=
              !((st.filter fun o => o.id ∈ ids).all fun o => o.favorite) }
        else r := by
  obtain ⟨w, hw⟩ := List.exists_mem_of_ne_nil _ hne
  have hwin : w ∈ st := List.mem_of_mem_filter hw
  have hwid : w.id ∈ ids := by simpa using List.of_mem_filter hw
  have hids_ne : ids.isEmpty = false := by
    cases ids with
    | nil => cases hwid
    | cons a l => rfl
  set sel := st.filter fun o => o.id ∈ ids with hselDef
  have hlen : decide (0 < sel.length) = true := by
    simp only [decide_eq_true_eq]
    cases hsel : sel with
    | nil => rw [hselDef] at hsel; exact absurd hsel hne
    | cons a l => simp [hsel]
  have hallFav : (decide (0 < sel.length) && sel.all fun o => o.favorite)
      = sel.all fun o => o.favorite := by
    rw [hlen, Bool.true_and]
  have hbulk : bulkToggleFavorite st ids
      = sel.foldl
          (fun db o => dbPut db { o with favorite := !(sel.all fun o => o.favorite) }) st := by
    unfold bulkToggleFavorite
    rw [hids_ne]
    simp only [Bool.false_eq_true, if_false, ← hselDef, hallFav]
  rw [hbulk]
  have hsub : ∀ o ∈ sel, o ∈ st := fun o ho => List.mem_of_mem_filter ho
  have hselNodup : (sel.map fun r => r.id).Nodup := by
    have hsl : sel.Sublist st := List.filter_sublist st
    have hwf' : (st.map fun r => r.id).Nodup := hwf
    exact (hsl.map fun r => r.id).nodup hwf' 
  rw [foldPut_setFav_eq_map _ sel st hsub hwf hselNodup]
  apply List.map_congr_left
  intro r hr
  have hcond : (sel.any fun o => o.id = r.id) = decide (r.id ∈ ids) := by
    by_cases hmem : r.id ∈ ids
    · have hrsel : r ∈ sel := by
        rw [hselDef]
        exact List.mem_filter.mpr ⟨hr, by simpa using hmem⟩
      have hrt : decide (r.id ∈ ids) = true := by simp [hmem]
      rw [hrt, List.any_eq_true]
      exact ⟨r, hrsel, by simp⟩
    · have hrf : decide (r.id ∈ ids) = false := by simp [hmem]
      rw [hrf, List.any_eq_false]
      intro o ho
      simp only [decide_eq_true_eq]
      intro he
      have hosel := List.of_mem_filter ho
      simp only [decide_eq_true_eq] at hosel
      exact hmem (he ▸ hosel)
  rw [hcond]
  by_cases hmem : r.id ∈ ids
  · simp [hmem]
  · simp [hmem]

/-- Witness for C7 at the spec scenario: selecting records A (favorite) and
B (not favorite) and toggling makes both favorite. -/
theorem bulkToggleFavorite_majorityFlip_witness :
    bulkToggleFavorite [outfitA, outfitB] ["o_1_a", "o_2_b"]
      = [{ outfitA with favorite := true }, { outfitB with favorite := true }] := by
  have h := bulkToggleFavorite_majorityFlip [outfitA, outfitB] ["o_1_a", "o_2_b"]
    (by decide) (by decide)
  rw [h]
  decide

/-! ## Claim C1 — resize-normalize -/

theorem scale_nonneg {m mx : ℕ} (hmx : 0 < mx) :
    (0 : ℚ) ≤ min 1 ((m : ℚ) / (mx : ℚ)) := by
  apply le_min
  · norm_num
  · positivity

theorem scaled_le_bound {d mx m : ℕ} (hdmx : d ≤ mx) (hmx : 0 < mx) :
    (d : ℚ) * min 1 ((m : ℚ) / (mx : ℚ)) ≤ m := by
  have hmx' : (0 : ℚ) < mx := by exact_mod_cast hmx
  calc (d : ℚ) * min 1 ((m : ℚ) / (mx : ℚ))
      ≤ (mx : ℚ) * min 1 ((m : ℚ) / (mx : ℚ)) := by
        apply mul_le_mul_of_nonneg_right
        · exact_mod_cast hdmx
        · exact scale_nonneg hmx
    _ ≤ (mx : ℚ) * ((m : ℚ) / (mx : ℚ)) := by
        apply mul_le_mul_of_nonneg_left (min_le_right _ _) (le_of_lt hmx')
    _ = m := by field_simp

theorem scaled_le_self (d mx m : ℕ) :
    (d : ℚ) * min 1 ((m : ℚ) / (mx : ℚ)) ≤ d := by
  calc (d : ℚ) * min 1 ((m : ℚ) / (mx : ℚ))
      ≤ (d : ℚ) * 1 := by
        apply mul_le_mul_of_nonneg_left (min_le_left _ _)
        positivity
    _ = d := mul_one _

theorem jsRound_le_nat {x : ℚ} {n : ℕ} (hx : x ≤ n) : jsRound x ≤ n := by
  unfold jsRound
  have : x + 1 / 2 < (n : ℚ) + 1 := by linarith
  have h2 := Int.floor_lt.mpr (by push_cast; linarith : x + 1 / 2 < ((n + 1 : ℤ) : ℚ))
  omega

theorem jsRound_nonneg_of {x : ℚ} (hx : 0 ≤ x) : 0 ≤ jsRound x := by
  unfold jsRound
  apply Int.le_floor.mpr
  push_cast
  linarith

/-- One resized dimension: `max(1, Math.round(d * scale))` is bounded by the
original dimension and by the size bound, and is within 1 of the exact scaled
value. -/
theorem resizeDim_spec (d mx m : ℕ) (hd : 0 < d) (hdmx : d ≤ mx) (hm : 0 < m) :
    ((max 1 (jsRound ((d : ℚ) * min 1 ((m : ℚ) / (mx : ℚ)))) : ℤ) : ℚ) ≤ m ∧
    ((max 1 (jsRound ((d : ℚ) * min 1 ((m : ℚ) / (mx : ℚ)))) : ℤ) : ℚ) ≤ d ∧
    |((max 1 (jsRound ((d : ℚ) * min 1 ((m : ℚ) / (mx : ℚ)))) : ℤ) : ℚ)
        - (d : ℚ) * min 1 ((m : ℚ) / (mx : ℚ))| ≤ 1 := by
  have hmx : 0 < mx := lt_of_lt_of_le hd hdmx
  set x : ℚ := (d : ℚ) * min 1 ((m : ℚ) / (mx : ℚ)) with hx
  have hx0 : 0 ≤ x := by
    rw [hx]
    apply mul_nonneg (by positivity) (scale_nonneg hmx)
  have hxm : x ≤ m := scaled_le_bound hdmx hmx
  have hxd : x ≤ d := scaled_le_self d mx m
  have hr0 : 0 ≤ jsRound x := jsRound_nonneg_of hx0
  have hrm : jsRound x ≤ m := jsRound_le_nat hxm
  have hrd : jsRound x ≤ d := jsRound_le_nat hxd
  have hfl := Int.floor_le (x + 1 / 2)
  have hfu := Int.lt_floor_add_one (x + 1 / 2)
  refine ⟨?_, ?_, ?_⟩
  · have : max 1 (jsRound x) ≤ (m : ℤ) := by omega
    exact_mod_cast this
  · have : max 1 (jsRound x) ≤ (d : ℤ) := by omega
    exact_mod_cast this
  · rw [abs_le]
    by_cases h1 : 1 ≤ jsRound x
    · have hmax : max 1 (jsRound x) = jsRound x := max_eq_right h1
      rw [hmax]
      unfold jsRound at *
      constructor
      · linarith
      · linarith
    · have hr_eq : jsRound x = 0 := by omega
      have hmax : max 1 (jsRound x) = 1 := by omega
      rw [hmax]
      have hxlt : x < 1 / 2 := by
        by_contra hge
        push_neg at hge
        have : (1 : ℤ) ≤ jsRound x := by
          unfold jsRound
          apply Int.le_floor.mpr
          push_cast
          linarith
        omega
      constructor
      · push_cast
        linarith
      · push_cast
        linarith

/-- C1 (amended): for a decodable input (either decode path succeeds), the
resize computes `scale = min(1, maxSide / max(w, h))`; when re-encoding
yields a blob the output dimensions are bounded by `maxSide`, never exceed
the source dimensions (no upscale), and each is within rounding distance of
the exact scaled value (aspect ratio preserved within rounding); when
re-encoding yields no blob the original input is returned unchanged. If both
decode paths fail the operation fails (`Except.error`) instead of returning
the original. -/
theorem fileToSafeJpegBlob_spec (img : InputImage) (w h maxSide : ℕ)
    (hd : imgDecode img = some (w, h)) (hw : 0 < w) (hh : 0 < h)
    (hM : 0 < maxSide) :
    (img.encodeOk = false → fileToSafeJpegBlob img maxSide = .ok .original) ∧
    (img.encodeOk = true →
      fileToSafeJpegBlob img maxSide
        = .ok (.encoded
            (max 1 (jsRound ((w : ℚ) * min 1 ((maxSide : ℚ) / ((max w h : ℕ) : ℚ)))))
            (max 1 (jsRound ((h : ℚ) * min 1 ((maxSide : ℚ) / ((max w h : ℕ) : ℚ)))))) ∧
      (((max 1 (jsRound ((w : ℚ) * min 1 ((maxSide : ℚ) / ((max w h : ℕ) : ℚ)))) : ℤ) : ℚ) ≤ maxSide ∧
       ((max 1 (jsRound ((h : ℚ) * min 1 ((maxSide : ℚ) / ((max w h : ℕ) : ℚ)))) : ℤ) : ℚ) ≤ maxSide) ∧
      (((max 1 (jsRound ((w : ℚ) * min 1 ((maxSide : ℚ) / ((max w h : ℕ) : ℚ)))) : ℤ) : ℚ) ≤ w ∧
       ((max 1 (jsRound ((h : ℚ) * min 1 ((maxSide : ℚ) / ((max w h : ℕ) : ℚ)))) : ℤ) : ℚ) ≤ h) ∧
      (abs (((max 1 (jsRound ((w : ℚ) * min 1 ((maxSide : ℚ) / ((max w h : ℕ) : ℚ)))) : ℤ) : ℚ)
          - (w : ℚ) * min 1 ((maxSide : ℚ) / ((max w h : ℕ) : ℚ))) ≤ 1 ∧
       abs (((max 1 (jsRound ((h : ℚ) * min 1 ((maxSide : ℚ) / ((max w h : ℕ) : ℚ)))) : ℤ) : ℚ)
          - (h : ℚ) * min 1 ((maxSide : ℚ) / ((max w h : ℕ) : ℚ))) ≤ 1)) ∧
    (imgDecode img = none → fileToSafeJpegBlob img maxSide = .error ()) := by
  have hwspec := resizeDim_spec w (max w h) maxSide hw (le_max_left _ _) hM
  have hhspec := resizeDim_spec h (max w h) maxSide hh (le_max_right _ _) hM
  refine ⟨?_, ?_, ?_⟩
  · intro he
    unfold fileToSafeJpegBlob
    rw [hd, he]
    rfl
  · intro he
    refine ⟨?_, ⟨hwspec.1, hhspec.1⟩, ⟨hwspec.2.1, hhspec.2.1⟩,
      hwspec.2.2, hhspec.2.2⟩
    unfold fileToSafeJpegBlob
    rw [hd, he]
    rfl
  · intro hnone
    rw [hnone] at hd
    cases hd

/-- C1 counterexample: when both decode paths fail, `fileToSafeJpegBlob`
rejects (the fallback promise's `onerror` propagates) instead of returning
the original input unchanged. -/
theorem fileToSafeJpegBlob_both_decode_fail :
    fileToSafeJpegBlob ⟨none, none, true⟩ 1600 = .error () ∧
    fileToSafeJpegBlob ⟨none, none, true⟩ 1600 ≠ .ok .original :=
  ⟨rfl, fun h => Except.noConfusion h⟩

unseal Rat.mul Rat.inv Rat.sub Rat.add in
/-- Witness for C1 at the spec scenario: a 2000×800 input with
`maxSide = 1600` is resized to 1600×640 (max dimension ≤ 1600, aspect ratio
2000:800 preserved exactly). -/
theorem fileToSafeJpegBlob_spec_witness :
    fileToSafeJpegBlob ⟨some (2000, 800), none, true⟩ 1600
      = .ok (.encoded 1600 640) := by
  have h := (fileToSafeJpegBlob_spec ⟨some (2000, 800), none, true⟩ 2000 800 1600
    rfl (by decide) (by decide) (by decide)).2.1 rfl
  have hcw : max 1 (jsRound (((2000 : ℕ) : ℚ)
      * min 1 (((1600 : ℕ) : ℚ) / ((max 2000 800 : ℕ) : ℚ)))) = 1600 := by decide
  have hch : max 1 (jsRound (((800 : ℕ) : ℚ)
      * min 1 (((1600 : ℕ) : ℚ) / ((max 2000 800 : ℕ) : ℚ)))) = 640 := by decide
  rw [h.1, hcw, hch]

/-! ## Claim C6 — center-crop-normalize -/

/-- C6 (amended): when the fast decode path succeeds and re-encoding yields a
blob, `cropCenterSquareToJpeg` produces a square of side
`min(maxSide, min(w, h))`, cropped from the largest centered square of the
source (origin within one pixel of exact center, crop contained in the
source); and when the fast decode path fails, it falls back to
`fileToSafeJpegBlob` instead of failing. -/
theorem cropCenterSquareToJpeg_spec (img imgNoDecode : InputImage)
    (w h maxSide : ℕ)
    (hd : img.fastDecode = some (w, h)) (he : img.encodeOk = true)
    (hd2 : imgNoDecode.fastDecode = none) :
    cropCenterSquareToJpeg img maxSide
      = .ok (.square ((w - min w h) / 2) ((h - min w h) / 2) (min w h)
          (min maxSide (min w h))) ∧
    ((w - min w h) / 2 + min w h ≤ w ∧
     (h - min w h) / 2 + min w h ≤ h ∧
     w ≤ 2 * ((w - min w h) / 2) + min w h + 1 ∧
     h ≤ 2 * ((h - min w h) / 2) + min w h + 1) ∧
    min maxSide (min w h) ≤ maxSide ∧ min maxSide (min w h) ≤ min w h ∧
    cropCenterSquareToJpeg imgNoDecode maxSide
      = (fileToSafeJpegBlob imgNoDecode maxSide).map .fallback := by
  have hwh : min w h ≤ w := min_le_left _ _
  have hwh' : min w h ≤ h := min_le_right _ _
  refine ⟨?_, ⟨by omega, by omega, by omega, by omega⟩,
    min_le_left _ _, min_le_right _ _, ?_⟩
  · unfold cropCenterSquareToJpeg
    rw [hd, he]
    rfl
  · unfold cropCenterSquareToJpeg
    rw [hd2]

/-- C6 counterexample: on a decodable 1600×900 input whose re-encode yields
no blob, the operation returns the original input, not a 900×900 square, so
the claim's unconditional "produces a square output" fails. -/
theorem cropCenterSquareToJpeg_encode_fail :
    cropCenterSquareToJpeg ⟨some (1600, 900), none, false⟩ 1200 = .ok .original ∧
    cropCenterSquareToJpeg ⟨some (1600, 900), none, false⟩ 1200
      ≠ .ok (.square 350 0 900 900) :=
  ⟨rfl, fun h => by
    have h2 := Except.ok.inj h
    cases h2⟩

/-- Witness for C6 at the spec scenario: a 1600×900 input with
`maxSide = 1200` yields an exactly 900×900 square (crop side
`min(1600, 900) = 900 ≤ 1200`), centered at x = 350. -/
theorem cropCenterSquareToJpeg_spec_witness :
    cropCenterSquareToJpeg ⟨some (1600, 900), none, true⟩ 1200
      = .ok (.square 350 0 900 900) ∧
    cropCenterSquareToJpeg ⟨none, some (50, 40), true⟩ 1200
      = (fileToSafeJpegBlob ⟨none, some (50, 40), true⟩ 1200).map .fallback := by
  have h := cropCenterSquareToJpeg_spec ⟨some (1600, 900), none, true⟩
    ⟨none, some (50, 40), true⟩ 1600 900 1200 rfl rfl rfl
  exact ⟨h.1, h.2.2.2.2⟩

/-! ## Backup codec lemmas -/

theorem jsOrQ_some_zero_default (q : ℚ) : jsOrQ (some q) 0 = q := by
  show (if q = 0 then (0 : ℚ) else q) = q
  by_cases h : q = 0
  · rw [if_pos h, h]
  · rw [if_neg h]

theorem jsOrQ_some_of_ne {q d : ℚ} (h : q ≠ 0) : jsOrQ (some q) d = q := by
  show (if q = 0 then d else q) = q
  rw [if_neg h]

theorem safeName_of_trimmed {s : String} (h1 : jsTrim s = s) (h2 : s ≠ "") :
    safeName s = s := by
  unfold safeName
  rw [h1, if_neg h2]

theorem safeName_ne_empty (s : String) : safeName s ≠ "" := by
  unfold safeName
  by_cases h : jsTrim s = ""
  · rw [if_pos h]
    decide
  · rw [if_neg h]
    exact h

theorem clampRating_jsOrQ_fixed {q : ℚ} (hint : (jsRound q : ℚ) = q)
    (h0 : 0 ≤ q) (h5 : q ≤ 5) :
    ((clampRating (.num (jsOrQ (some q) 0)) : ℤ) : ℚ) = q := by
  rw [jsOrQ_some_zero_default]
  show ((min 5 (max 0 (jsRound q)) : ℤ) : ℚ) = q
  have hj0 : (0 : ℤ) ≤ jsRound q := by
    have h : (0 : ℚ) ≤ ((jsRound q : ℤ) : ℚ) := by rw [hint]; exact h0
    exact_mod_cast h
  have hj5 : jsRound q ≤ (5 : ℤ) := by
    have h : ((jsRound q : ℤ) : ℚ) ≤ 5 := by rw [hint]; exact h5
    exact_mod_cast h
  have habsorb : min 5 (max 0 (jsRound q)) = jsRound q := by omega
  rw [habsorb, hint]

/-- Importing the entry exported for a valid record rebuilds the record
itself (with the chosen id). -/
theorem importedOutfit_exportEntry (r : Outfit) (id : String) (now : ℚ)
    (hr : ValidOutfit r) :
    importedOutfit id (dataURLToBlob (blobToDataURL r.imageBlob))
        (exportEntry r) now
      = { r with id := id } := by
  obtain ⟨-, hname, hname2, hrint, hr0, hr5, hcreated, htags, hnotes⟩ := hr
  obtain ⟨rid, rname, rrating, rfav, rcreated, rblob, rtags, rnotes, rwear, rlast⟩ := r
  simp only at hname hname2 hrint hr0 hr5 hcreated htags hnotes
  unfold importedOutfit exportEntry
  simp only [Outfit.mk.injEq]
  and_intros <;>
    first
      | trivial
      | exact safeName_of_trimmed hname hname2
      | exact clampRating_jsOrQ_fixed hrint hr0 hr5
      | exact jsOrQ_some_of_ne hcreated
      | exact htags
      | exact hnotes
      | exact jsOrQ_some_zero_default _

/-! ## Claim C3 — export/import round trip on an empty store -/

/-- C3: exporting a single valid record and importing the resulting document
into an empty store yields exactly that record back: every field equal,
including the id (no collision on an empty store) and the image payload
(byte-equal after the data-URL decode). -/
theorem export_import_roundTrip (r : Outfit) (fresh : ℕ → String) (now : ℚ)
    (hr : ValidOutfit r) :
    importOutfitsFromFile [] fresh now
        (some ((exportOutfits [r]).outfits.map some)) = .ok [r] := by
  have hid : r.id ≠ "" := hr.1
  have hkeep : (exportEntry r).id ≠ "" ∧ (exportEntry r).id ∉ ([] : List String) :=
    ⟨hid, by simp⟩
  show Except.ok (dbPut [] (importedOutfit
      (if (exportEntry r).id ≠ "" ∧ (exportEntry r).id ∉ ([] : List String)
        then (exportEntry r).id else fresh 0)
      (dataURLToBlob (blobToDataURL r.imageBlob)) (exportEntry r) now))
    = Except.ok [r]
  rw [if_pos hkeep]
  rw [show importedOutfit (exportEntry r).id
      (dataURLToBlob (blobToDataURL r.imageBlob)) (exportEntry r) now = r
    from importedOutfit_exportEntry r r.id now hr]
  rfl

unseal Rat.mul Rat.inv Rat.sub Rat.add in
/-- Witness for C3: round-tripping the concrete record `outfitA` through
export and import on an empty store returns it unchanged. -/
theorem export_import_roundTrip_witness :
    importOutfitsFromFile [] freshConst 1
        (some ((exportOutfits [outfitA]).outfits.map some)) = .ok [outfitA] :=
  export_import_roundTrip outfitA freshConst 1 (by decide)

/-! ## Import loop lemmas -/

theorem importLoop_cons_none (fresh : ℕ → String) (now : ℚ)
    (rest : List (Option RawEntry)) (existing : List String) (k : ℕ) (db : Store) :
    importLoop fresh now (none :: rest) existing k db
      = importLoop fresh now rest existing k db := rfl

theorem importLoop_cons_some (fresh : ℕ → String) (now : ℚ) (e : RawEntry)
    (rest : List (Option RawEntry)) (existing : List String) (k : ℕ) (db : Store) :
    importLoop fresh now (some e :: rest) existing k db
      = match e.imageDataUrl with
        | none => importLoop fresh now rest existing k db
        | some dataUrl => importLoop fresh now rest
            ((if e.id ≠ "" ∧ e.id ∉ existing then e.id else fresh k) :: existing)
            (if e.id ≠ "" ∧ e.id ∉ existing then k else k + 1)
            (dbPut db (importedOutfit
              (if e.id ≠ "" ∧ e.id ∉ existing then e.id else fresh k)
              (dataURLToBlob dataUrl) e now)) := rfl

theorem mem_dbPut {db : Store} {x o : Outfit} (h : o ∈ dbPut db x) :
    o ∈ db ∨ o = x := by
  unfold dbPut at h
  split at h
  · rcases List.mem_map.mp h with ⟨r, hr, hro⟩
    by_cases hid : r.id = x.id
    · right
      rw [← hro, if_pos hid]
    · left
      rw [← hro, if_neg hid]
      exact hr
  · rcases List.mem_append.mp h with h1 | h2
    · left
      exact h1
    · right
      simpa using h2

theorem mem_dbPut_of_ne {db : Store} {x r : Outfit} (hr : r ∈ db)
    (hne : r.id ≠ x.id) : r ∈ dbPut db x := by
  unfold dbPut
  split
  · apply List.mem_map.mpr
    refine ⟨r, hr, ?_⟩
    rw [if_neg hne]
  · exact List.mem_append_left _ hr

theorem importLoop_mem (fresh : ℕ → String) (now : ℚ) :
    ∀ (entries : List (Option RawEntry)) (existing : List String) (k : ℕ)
      (db : Store) (o : Outfit),
      o ∈ importLoop fresh now entries existing k db →
      o ∈ db ∨ ∃ e u id, some e ∈ entries ∧ e.imageDataUrl = some u ∧
        o = importedOutfit id (dataURLToBlob u) e now := by
  intro entries
  induction entries with
  | nil =>
    intro existing k db o ho
    left
    exact ho
  | cons e? rest ih =>
    intro existing k db o ho
    rcases e? with - | e
    · rcases ih existing k db o ho with h | ⟨e, u, id, hmem, hu, heq⟩
      · left; exact h
      · right; exact ⟨e, u, id, List.mem_cons_of_mem _ hmem, hu, heq⟩
    · cases him : e.imageDataUrl with
      | none =>
        have ho' : o ∈ importLoop fresh now rest existing k db := by
          rw [importLoop_cons_some, him] at ho
          exact ho
        rcases ih existing k db o ho' with h | ⟨e2, u, id, hmem, hu, heq⟩
        · left; exact h
        · right; exact ⟨e2, u, id, List.mem_cons_of_mem _ hmem, hu, heq⟩
      | some u =>
        have ho' : o ∈ importLoop fresh now rest
            ((if e.id ≠ "" ∧ e.id ∉ existing then e.id else fresh k) :: existing)
            (if e.id ≠ "" ∧ e.id ∉ existing then k else k + 1)
            (dbPut db (importedOutfit
              (if e.id ≠ "" ∧ e.id ∉ existing then e.id else fresh k)
              (dataURLToBlob u) e now)) := by
          rw [importLoop_cons_some, him] at ho
          exact ho
        rcases ih _ _ _ o ho' with h | ⟨e2, u2, id, hmem, hu, heq⟩
        · rcases mem_dbPut h with h1 | h2
          · left; exact h1
          · right
            exact ⟨e, u, _, List.mem_cons_self _ _, him, h2⟩
        · right; exact ⟨e2, u2, id, List.mem_cons_of_mem _ hmem, hu, heq⟩

theorem importedOutfit_validated (id : String) (blob : Blob) (e : RawEntry)
    (now : ℚ) :
    (importedOutfit id blob e now).name ≠ "" ∧
    0 ≤ (importedOutfit id blob e now).rating ∧
    (importedOutfit id blob e now).rating ≤ 5 ∧
    (jsRound (importedOutfit id blob e now).rating : ℚ)
      = (importedOutfit id blob e now).rating ∧
    (importedOutfit id blob e now).tags.Nodup ∧
    (importedOutfit id blob e now).tags.length ≤ 20 ∧
    ∀ t ∈ (importedOutfit id blob e now).tags, t ≠ "" ∧ jsToLower t = t := by
  refine ⟨safeName_ne_empty _, ?_, ?_, ?_, ?_, ?_, ?_⟩
  · show (0 : ℚ) ≤ ((clampRating (.num (jsOrQ e.rating 0)) : ℤ) : ℚ)
    exact_mod_cast clampRating_nonneg _
  · show ((clampRating (.num (jsOrQ e.rating 0)) : ℤ) : ℚ) ≤ 5
    exact_mod_cast clampRating_le_five _
  · exact congrArg (fun z => ((z : ℤ) : ℚ)) (jsRound_intCast _)
  · show (match e.tags with
      | .inl arr => parseTags (jsJoinComma arr)
      | .inr s => parseTags s).Nodup
    cases e.tags with
    | inl arr => exact parseTags_nodup _
    | inr s => exact parseTags_nodup _
  · show (match e.tags with
      | .inl arr => parseTags (jsJoinComma arr)
      | .inr s => parseTags s).length ≤ 20
    cases e.tags with
    | inl arr => exact parseTags_length_le _
    | inr s => exact parseTags_length_le _
  · show ∀ t ∈ (match e.tags with
      | .inl arr => parseTags (jsJoinComma arr)
      | .inr s => parseTags s), t ≠ "" ∧ jsToLower t = t
    cases e.tags with
    | inl arr => exact fun t ht => parseTags_mem_props ht
    | inr s => exact fun t ht => parseTags_mem_props ht

theorem importLoop_preserves_record (fresh : ℕ → String) (now : ℚ) (r : Outfit)
    (hfr : ∀ k2, fresh k2 ≠ r.id) :
    ∀ (entries : List (Option RawEntry)) (existing : List String) (k : ℕ)
      (db : Store), r ∈ db → r.id ∈ existing →
      r ∈ importLoop fresh now entries existing k db := by
  intro entries
  induction entries with
  | nil =>
    intro existing k db hr _
    exact hr
  | cons e? rest ih =>
    intro existing k db hr hex
    rcases e? with - | e
    · exact ih existing k db hr hex
    · cases him : e.imageDataUrl with
      | none =>
        have h := ih existing k db hr hex
        rw [importLoop_cons_some, him]
        exact h
      | some u =>
        have hne : (if e.id ≠ "" ∧ e.id ∉ existing then e.id else fresh k) ≠ r.id := by
          by_cases hk : e.id ≠ "" ∧ e.id ∉ existing
          · rw [if_pos hk]
            intro he
            exact hk.2 (he ▸ hex)
          · rw [if_neg hk]
            exact hfr k
        rw [importLoop_cons_some, him]
        apply ih
        · exact mem_dbPut_of_ne hr (fun he => hne (he.symm))
        · exact List.mem_cons_of_mem _ hex

/-! ## Claim C4 — import rejection, per-entry skip, re-validation -/

/-- C4: a document with the wrong top-level shape is rejected as a whole with
the format error (before any record is written); an entry that is null or
misses its image payload is skipped, leaving the loop state unchanged; and
every record added by an import is built by the validating constructor from
some entry — its name is non-empty, its rating is an integer clamped to
`[0, 5]`, and its tags are deduplicated, at most 20, non-empty and
lowercase. -/
theorem importDoc_error_skip_validate
    (st : Store) (fresh : ℕ → String) (now : ℚ)
    (entries : List (Option RawEntry)) (res : Store)
    (e? : Option RawEntry) (rest : List (Option RawEntry))
    (existing : List String) (k : ℕ)
    (hskip : e? = none ∨ ∃ re, e? = some re ∧ re.imageDataUrl = none)
    (hres : importOutfitsFromFile st fresh now (some entries) = .ok res) :
    importOutfitsFromFile st fresh now none = .error "Formato backup non valido" ∧
    importLoop fresh now (e? :: rest) existing k st
      = importLoop fresh now rest existing k st ∧
    ∀ o ∈ res, o ∈ st ∨
      ((∃ e u id, some e ∈ entries ∧ e.imageDataUrl = some u ∧
          o = importedOutfit id (dataURLToBlob u) e now) ∧
        o.name ≠ "" ∧ 0 ≤ o.rating ∧ o.rating ≤ 5 ∧
        (jsRound o.rating : ℚ) = o.rating ∧
        o.tags.Nodup ∧ o.tags.length ≤ 20 ∧
        ∀ t ∈ o.tags, t ≠ "" ∧ jsToLower t = t) := by
  refine ⟨rfl, ?_, ?_⟩
  · rcases hskip with h | ⟨re, he, him⟩
    · rw [h, importLoop_cons_none]
    · rw [he, importLoop_cons_some, him]
  · intro o ho
    have hres' : res = importLoop fresh now entries (st.map fun o2 => o2.id) 0 st :=
      (Except.ok.inj hres).symm
    rw [hres'] at ho
    rcases importLoop_mem fresh now entries _ 0 st o ho with h | ⟨e, u, id, hmem, hu, heq⟩
    · left; exact h
    · right
      refine ⟨⟨e, u, id, hmem, hu, heq⟩, ?_⟩
      rw [heq]
      exact importedOutfit_validated id (dataURLToBlob u) e now

/-- Witness for C4: a document whose `outfits` field is missing is rejected
with the format error, and a null entry is skipped without affecting the
rest of the import. -/
theorem importDoc_error_skip_validate_witness :
    importOutfitsFromFile ([] : Store) freshConst 1 none
      = .error "Formato backup non valido" ∧
    importLoop freshConst 1 [none] [] 0 []
      = importLoop freshConst 1 [] [] 0 [] := by
  have h := importDoc_error_skip_validate [] freshConst 1 [none] [] none [] [] 0
    (Or.inl rfl) rfl
  exact ⟨h.1, h.2.1⟩

/-! ## Claim C5 — imports never overwrite existing records -/

/-- C5: importing a well-formed document into a store whose ids the `uid()`
stream avoids preserves every pre-existing record unchanged, and an entry
whose id collides with an existing id is stored under a freshly generated id
instead. -/
theorem import_collision_fresh_preserves
    (st : Store) (fresh : ℕ → String) (now : ℚ)
    (entries rest : List (Option RawEntry)) (res db : Store)
    (e : RawEntry) (u : DataUrl) (k : ℕ)
    (hfresh : ∀ k2, fresh k2 ∉ st.map fun o => o.id)
    (hres : importOutfitsFromFile st fresh now (some entries) = .ok res)
    (him : e.imageDataUrl = some u)
    (hcol : e.id ∈ st.map fun o => o.id) :
    (∀ r ∈ st, r ∈ res) ∧
    importLoop fresh now (some e :: rest) (st.map fun o => o.id) k db
      = importLoop fresh now rest (fresh k :: st.map fun o => o.id) (k + 1)
          (dbPut db (importedOutfit (fresh k) (dataURLToBlob u) e now)) := by
  constructor
  · intro r hr
    have hres' : res = importLoop fresh now entries (st.map fun o2 => o2.id) 0 st :=
      (Except.ok.inj hres).symm
    rw [hres']
    apply importLoop_preserves_record
    · intro k2 he
      exact hfresh k2 (he ▸ List.mem_map.mpr ⟨r, hr, rfl⟩)
    · exact hr
    · exact List.mem_map.mpr ⟨r, hr, rfl⟩
  · rw [importLoop_cons_some, him]
    have hkeep : ¬(e.id ≠ "" ∧ e.id ∉ st.map fun o => o.id) := by
      intro hk
      exact hk.2 hcol
    rw [if_neg hkeep, if_neg hkeep]

/-- Witness for C5: importing an entry whose id collides with `outfitA`
leaves `outfitA` present and stores the entry under the fresh id. -/
theorem import_collision_fresh_preserves_witness :
    outfitA ∈ [outfitA, importedCollide] ∧
    importLoop freshConst 1 [some collideEntry] ["o_1_a"] 0 [outfitA]
      = importLoop freshConst 1 []
          ("o_fresh" :: ["o_1_a"]) 1
          (dbPut [outfitA]
            (importedOutfit "o_fresh" (dataURLToBlob ⟨[1, 2, 3]⟩) collideEntry 1)) := by
  have h := import_collision_fresh_preserves [outfitA] freshConst 1
    [some collideEntry] [] [outfitA, importedCollide] [outfitA]
    collideEntry ⟨[1, 2, 3]⟩ 0
    (by
      intro k2
      show ("o_fresh" : String) ∉ ["o_1_a"]
      decide) rfl rfl (by decide)
  exact ⟨h.1 outfitA (by decide), h.2⟩
